import Mathlib

/-!
Shallow embedding of the kiosk photo player server (`src/server.js`, plus the
mux-expansion revision in `src/unnamed/part_003`).

The filesystem is modelled as an association list of files keyed by a root tag
(photo root or cache root) and a relative path string.  Image decoding and
resizing (the `sharp` library) are abstracted as an `ImageOps` record whose
operations may fail (`Option`), modelling decode and write errors.  All JS
call sites pass `path.join(PHOTOS_DIR, f)` into `ensureCached`, and
`path.relative(PHOTOS_DIR, ·)` recovers `f`, so the embedding takes the
photo-root-relative path directly.
-/

/-- JS `x || d` for an optional string field (the empty string is falsy). -/
def jsOrStr : Option String → String → String
  | some s, d => if s = "" then d else s
  | none, d => d

/-- JS `x || d` for an optional numeric field (`0` is falsy). -/
def jsOrQ : Option ℚ → ℚ → ℚ
  | some q, d => if q = 0 then d else q
  | none, d => d

/-- Forward-slash normalization: `relPath.replace(/\\/g, "/")`. -/
def normSlash (s : String) : String :=
  String.map (fun c => if c = '\\' then '/' else c) s

/-- File contents, abstract bytes. -/
abbrev Bytes := List Nat

/-- Pixel dimensions reported by `sharp(...).metadata()`. -/
structure Metadata where
  width : Nat
  height : Nat
deriving DecidableEq, Repr

/-- Abstract interface to the `sharp` image library.  `metadata` returning
`none` models a decode error; `resize` returning `none` models a transform or
file-write error.  `resize src w h` is the pipeline
`rotate().resize({width: w, height: h, fit: "inside", withoutEnlargement}).withMetadata().toFile`. -/
structure ImageOps where
  metadata : Bytes → Option Metadata
  resize : Bytes → Nat → Nat → Option Bytes

/-- Which directory tree a file lives under. -/
inductive Root
  | photos
  | cache
deriving DecidableEq, Repr

/-- The filesystem: an association list from (root, relative path) to bytes.
A later write shadows an earlier entry. -/
structure FS where
  files : List (Root × String × Bytes)
deriving DecidableEq, Repr

/-- First entry for (root, path), if any. -/
def findFile : List (Root × String × Bytes) → Root → String → Option Bytes
  | [], _, _ => none
  | (r', p', b) :: rest, r, p =>
    if r' = r ∧ p' = p then some b else findFile rest r p

def FS.lookup (fs : FS) (r : Root) (p : String) : Option Bytes :=
  findFile fs.files r p

/-- Writing a file (creation or overwrite). -/
def FS.write (fs : FS) (r : Root) (p : String) (b : Bytes) : FS :=
  ⟨(r, p, b) :: fs.files⟩

/-- The `/cache/<relPath>` reference (forward-slash normalized). -/
def cacheRef (rel : String) : String := "/cache/" ++ normSlash rel

/-- The `/photos/<relPath>` reference (forward-slash normalized). -/
def photosRef (rel : String) : String := "/photos/" ++ normSlash rel

/-- Result of `ensureCached`: the updated filesystem, the returned reference,
and two ghost flags recording which branch ran — `transformed` is true when a
resize-or-copy completed and wrote the cached file, `resized` when that
transform was the resize pipeline rather than a byte-for-byte copy. -/
structure CacheResult where
  fs : FS
  ref : String
  transformed : Bool
  resized : Bool
deriving Repr

/-- The function `ensureCached(filePath, maxWidth = 1920, maxHeight = 1080)` from
`src/server.js` lines 65–96, with `rel` the source path relative to the photo
root.  The JS try/catch is modelled by the explicit error branches: a missing
source file makes `sharp(filePath).metadata()` throw, `metadata` may fail to
decode, and the resize pipeline's `toFile` may fail; each caught error returns
the `/photos/<relPath>` reference. -/
def ensureCached (ops : ImageOps) (fs : FS) (rel : String)
    (maxWidth maxHeight : Nat) : CacheResult :=
  if (fs.lookup Root.cache rel).isSome then
    ⟨fs, cacheRef rel, false, false⟩
  else
    match fs.lookup Root.photos rel with
    | none => ⟨fs, photosRef rel, false, false⟩
    | some src =>
      match ops.metadata src with
      | none => ⟨fs, photosRef rel, false, false⟩
      | some meta =>
        if meta.width > maxWidth ∨ meta.height > maxHeight then
          match ops.resize src (min meta.width maxWidth) (min meta.height maxHeight) with
          | none => ⟨fs, photosRef rel, false, false⟩
          | some out => ⟨fs.write Root.cache rel out, cacheRef rel, true, true⟩
        else
          ⟨fs.write Root.cache rel src, cacheRef rel, true, false⟩

/-- The loop of `prepareFrames`: `for (const fp of fullPaths) cached.push(await ensureCached(fp))`. -/
def cacheAll (ops : ImageOps) : FS → List String → FS × List String
  | fs, [] => (fs, [])
  | fs, p :: ps =>
    let r := ensureCached ops fs p 1920 1080
    let rest := cacheAll ops r.fs ps
    (rest.1, r.ref :: rest.2)

def isPhotoEntry : Root × String × Bytes → Bool
  | (Root.photos, _, _) => true
  | _ => false

/-- The relative paths of the files under the photo root. -/
def FS.photoPaths (fs : FS) : List String :=
  (fs.files.filter isPhotoEntry).map (fun e => e.2.1)

/-- Computes `(await glob(pattern, { cwd: PHOTOS_DIR })).sort()` — the glob matcher `m`
is abstract; the default JS array sort on strings is lexicographic. -/
def matchesFor (m : String → String → Bool) (fs : FS) (pattern : String) : List String :=
  (fs.photoPaths.filter (fun p => m pattern p)).mergeSort (fun a b => decide (a ≤ b))

/-- The function `prepareFrames(pattern)` from `src/server.js` lines 99–108. -/
def prepareFrames (ops : ImageOps) (m : String → String → Bool) (fs : FS)
    (pattern : String) : FS × List String :=
  cacheAll ops fs (matchesFor m fs pattern)

/-- A config `repeat` value or the `repeat` field of an emitted descriptor:
a number, the authored string sentinel `"infinite"`, or the JS number
`Infinity` produced by the multi-frame branch. -/
inductive RepVal
  | num (q : ℚ)
  | infiniteStr
  | infinityNum
deriving DecidableEq, Repr

/-- JS `x || d` for an optional repeat field (`0` is falsy, both sentinels truthy). -/
def jsOrRep : Option RepVal → RepVal → RepVal
  | some (.num q), d => if q = 0 then d else .num q
  | some r, _ => r
  | none, d => d

/-- The JS `repeat` field is named `repeat_` here (`repeat` is reserved):
this is `slide.repeat === "infinite" ? Infinity : (slide.repeat || 1)`. -/
def repOfSlide (r : Option RepVal) : RepVal :=
  match r with
  | some .infiniteStr => .infinityNum
  | r' => jsOrRep r' (.num 1)

/-- A JS number that may be `Infinity` (animation durations). -/
inductive JSNum
  | num (q : ℚ)
  | inf
deriving DecidableEq, Repr

/-- Computes `(frames.length * repeat) / fps` with `repeat` possibly `Infinity`. -/
def animDur (len : ℚ) (rep : RepVal) (fps : ℚ) : JSNum :=
  match rep with
  | .num r => .num (len * r / fps)
  | _ => .inf

/-- JS `slide.duration || computed` (`0` is falsy). -/
def jsOrDur (d : Option ℚ) (c : JSNum) : JSNum :=
  match d with
  | some q => if q = 0 then c else .num q
  | none => c

/-- One panel of a mux slide: `{ slides: [id, ...] }`. -/
structure Panel where
  slides : Option (List String)
deriving DecidableEq, Repr

/-- An authored slide definition from `config.yaml`.  Absent YAML keys are
`none`. -/
structure Slide where
  id : Option String
  type : Option String
  file : Option String
  url : Option String
  video_id : Option String
  effect : Option String
  duration : Option ℚ
  fps : Option ℚ
  repeat_ : Option RepVal
  title : Option String
  layout : Option String
  panels : Option (List Panel)
deriving DecidableEq, Repr

/-- A slide definition with every field absent. -/
def emptySlide : Slide :=
  ⟨none, none, none, none, none, none, none, none, none, none, none, none⟩

/-- One client entry of the config: `{ include: [id, ...] }`.  The JS
`include` field is named `include_` here (`include` is reserved). -/
structure ClientCfg where
  include_ : Option (List String)
deriving DecidableEq, Repr

def emptyClientCfg : ClientCfg := ⟨none⟩

/-- The decoded `config.yaml` object as read by `buildSlideshow`:
`{ slides, default, clients }`.  The JS `default` key is named `defaultCfg`. -/
structure Config where
  slides : Option (List Slide)
  clients : List (String × ClientCfg)
  defaultCfg : Option ClientCfg
deriving DecidableEq, Repr

/-- JS object-key lookup in an association list. -/
def lookupStr {α : Type} : List (String × α) → String → Option α
  | [], _ => none
  | (k, v) :: rest, c => if k = c then some v else lookupStr rest c

/-- Models `let clientCfg = clients[clientId]; if (!clientCfg) clientCfg = defaultCfg;`
(`src/server.js` lines 119–123, with `config.default || {}`). -/
def clientCfgOf (cfg : Config) (clientId : String) : ClientCfg :=
  match lookupStr cfg.clients clientId with
  | some c => c
  | none => cfg.defaultCfg.getD emptyClientCfg

/-- Models `const includeIds = clientCfg.include || defaultCfg.include || [];`
(line 126; an empty JS array is truthy, so a present-but-empty `include`
stays empty). -/
def includeIdsOf (cfg : Config) (clientId : String) : List String :=
  match (clientCfgOf cfg clientId).include_ with
  | some l => l
  | none => (cfg.defaultCfg.getD emptyClientCfg).include_.getD []

/-- Models `includeIds.length ? includeIds : masterSlides.map(s => s.id)` (line 134).
All-slides fallback yields the raw (possibly absent) `id` fields. -/
def idsToIterate (cfg : Config) (clientId : String) : List (Option String) :=
  let masterSlides := cfg.slides.getD []
  let inc := includeIdsOf cfg clientId
  if inc.isEmpty then masterSlides.map (fun s => s.id) else inc.map some

/-- Models `masterSlides.find(s => s.id === id)` — strict equality, so an absent `id`
matches an absent lookup key. -/
def findSlide : List Slide → Option String → Option Slide
  | [], _ => none
  | s :: rest, i => if s.id = i then some s else findSlide rest i

/-- Models `slide.file.includes("*")`. -/
def fileGlob (f : String) : Bool := f.contains '*'

/-- A renderable slide descriptor emitted by `src/server.js`'s
`buildSlideshow`: the blank, multi-frame and single-still record shapes. -/
inductive Desc
  | blank (id : String) (effect : String) (duration : ℚ) (fps : ℚ)
      (rep : RepVal) (title : String)
  | anim (id : Option String) (frames : List String) (effect : String)
      (duration : JSNum) (fps : ℚ) (rep : RepVal) (title : String)
  | still (id : Option String) (url : String) (effect : String) (duration : ℚ)
      (fps : ℚ) (rep : RepVal) (title : String)
deriving DecidableEq, Repr

/-- The blank-slide record of lines 143–151. -/
def blankDesc (slide : Slide) : Desc :=
  .blank (jsOrStr slide.id "blank") (jsOrStr slide.effect "none")
    (jsOrQ slide.duration 5) (jsOrQ slide.fps 10)
    (jsOrRep slide.repeat_ (.num 1)) (jsOrStr slide.title "")

/-- The still-slide record of lines 190–198 (also the fallback loop's shape,
lines 209–217). -/
def stillDesc (slide : Slide) (url : String) : Desc :=
  .still slide.id url (jsOrStr slide.effect "fade") (jsOrQ slide.duration 5)
    (jsOrQ slide.fps 10) (jsOrRep slide.repeat_ (.num 1)) (jsOrStr slide.title "")

/-- The loop body of `buildSlideshow` after a successful `findSlide`
(`src/server.js` lines 141–200): blank / multi-frame / single-still dispatch.
Returns the updated filesystem and the descriptors pushed (none when the
slide is skipped). -/
def processSlide (ops : ImageOps) (m : String → String → Bool) (fs : FS)
    (slide : Slide) : FS × List Desc :=
  match slide.file with
  | none => (fs, [blankDesc slide])
  | some f =>
    if f = "" then (fs, [blankDesc slide])
    else if fileGlob f then
      let r := prepareFrames ops m fs f
      if r.2.isEmpty then (r.1, [])
      else
        let fps := jsOrQ slide.fps 10
        let rep := repOfSlide slide.repeat_
        (r.1, [.anim slide.id r.2 (jsOrStr slide.effect "animate-smooth")
          (jsOrDur slide.duration (animDur r.2.length rep fps)) fps rep
          (jsOrStr slide.title "")])
    else
      match fs.lookup Root.photos f with
      | none => (fs, [])
      | some _ =>
        let r := ensureCached ops fs f 1920 1080
        (r.fs, [stillDesc slide r.ref])

/-- The `for (const id of ...)` loop of `buildSlideshow` (lines 134–201). -/
def processIds (ops : ImageOps) (m : String → String → Bool)
    (masterSlides : List Slide) : FS → List (Option String) → FS × List Desc
  | fs, [] => (fs, [])
  | fs, i :: rest =>
    match findSlide masterSlides i with
    | none => processIds ops m masterSlides fs rest
    | some slide =>
      let r := processSlide ops m fs slide
      let rr := processIds ops m masterSlides r.1 rest
      (rr.1, r.2 ++ rr.2)

/-- The empty-playlist fallback loop (lines 206–219): every master slide with
a truthy `file` is cached and pushed unconditionally. -/
def fallbackAll (ops : ImageOps) : FS → List Slide → FS × List Desc
  | fs, [] => (fs, [])
  | fs, s :: rest =>
    match s.file with
    | none => fallbackAll ops fs rest
    | some f =>
      if f = "" then fallbackAll ops fs rest
      else
        let r := ensureCached ops fs f 1920 1080
        let rr := fallbackAll ops r.fs rest
        (rr.1, stillDesc s r.ref :: rr.2)

/-- The function `buildSlideshow(clientId)` from `src/server.js` lines 113–224. -/
def buildSlideshow (ops : ImageOps) (m : String → String → Bool) (cfg : Config)
    (fs : FS) (clientId : String) : FS × List Desc :=
  let masterSlides := cfg.slides.getD []
  let r := processIds ops m masterSlides fs (idsToIterate cfg clientId)
  if r.2.isEmpty then fallbackAll ops r.1 masterSlides else r

/-- An incoming HTTP request as far as the slideshow handler can see it. -/
structure Request where
  query : List (String × String)
  headers : List (String × String)
  hostname : Option String
  ip : Option String

/-- Models `req.ip || req.headers["x-forwarded-for"] || "unknown"`. -/
def ipOf (req : Request) : String :=
  jsOrStr req.ip (jsOrStr (lookupStr req.headers "x-forwarded-for") "unknown")

/-- The log line written by the handler (line 231). -/
def logLine (clientId : String) (req : Request) : String :=
  "client=" ++ clientId ++ " | reqHost=" ++ jsOrStr req.hostname "unknown" ++
    " | ip=" ++ ipOf req

/-- The `GET /api/slideshow` handler (`src/server.js` lines 228–240): logs
request data, then builds the slideshow for the server's fixed client
identifier; the request itself feeds only the log line. -/
def slideshowHandler (ops : ImageOps) (m : String → String → Bool) (cfg : Config)
    (fs : FS) (serverClientId : String) (req : Request) :
    String × FS × List Desc :=
  (logLine serverClientId req, buildSlideshow ops m cfg fs serverClientId)

/-- Models `const CLIENT_ID = process.env.CLIENT_ID || os.hostname();` (line 18),
fixed at startup. -/
def clientIdAt (envClientId : Option String) (hostname : String) : String :=
  jsOrStr envClientId hostname

/-! ## Mux expansion (`src/unnamed/part_003`, lines 133–148)

The `addRef` closure expands a mux slide's transitive panel references with a
shared seen-set.  The Lean function returns the emitted slides together with
the final seen-set, and carries the proof that the seen-set only grows (needed
for termination of the loop that continues with the grown set). -/

/-- Computes `p.slides || []` flat-mapped over the panels:
`slide.panels.flatMap((p) => p.slides || [])`. -/
def panelIds (s : Slide) : List String :=
  (s.panels.getD []).flatMap (fun p => p.slides.getD [])

/-- The distinct ids defined in the master slide library. -/
def masterIds (M : List Slide) : Finset String :=
  (M.filterMap (fun s => s.id)).toFinset

/-- How many library ids are not yet in the seen-set (termination measure). -/
def unseenCount (M : List Slide) (seen : List String) : Nat :=
  ((masterIds M).filter (fun i => i ∉ seen)).card

theorem findSlide_eq_some {M : List Slide} {i : Option String} {c : Slide}
    (h : findSlide M i = some c) : c.id = i ∧ c ∈ M := by
  induction M with
  | nil => simp [findSlide] at h
  | cons s rest ih =>
    by_cases hs : s.id = i
    · simp [findSlide, hs] at h
      exact ⟨h ▸ hs, by simp [h]⟩
    · simp [findSlide, hs] at h
      obtain ⟨h1, h2⟩ := ih h
      exact ⟨h1, by simp [h2]⟩

theorem mem_masterIds_of_findSlide {M : List Slide} {rid : String} {c : Slide}
    (h : findSlide M (some rid) = some c) : rid ∈ masterIds M := by
  obtain ⟨h1, h2⟩ := findSlide_eq_some h
  simp only [masterIds, List.mem_toFinset, List.mem_filterMap]
  exact ⟨c, h2, h1⟩

theorem unseenCount_cons_lt {M : List Slide} {rid : String} {seen : List String}
    (h1 : rid ∈ masterIds M) (h2 : rid ∉ seen) :
    unseenCount M (rid :: seen) < unseenCount M seen := by
  apply Finset.card_lt_card
  constructor
  · intro x hx
    simp only [Finset.mem_filter, List.mem_cons] at hx ⊢
    exact ⟨hx.1, fun hm => hx.2 (Or.inr hm)⟩
  · intro hsub
    have := hsub (by simp [Finset.mem_filter, h1, h2] : rid ∈ (masterIds M).filter (fun i => ¬ i ∈ seen))
    simp [Finset.mem_filter] at this

theorem unseenCount_le_of_grow {M : List Slide} {s1 s2 : List String}
    (h : ∀ x ∈ s1, x ∈ s2) : unseenCount M s2 ≤ unseenCount M s1 := by
  apply Finset.card_le_card
  intro x hx
  simp only [Finset.mem_filter] at hx ⊢
  exact ⟨hx.1, fun hm => hx.2 (h x hm)⟩

/-- The `addRef(ids, seen)` closure of `src/unnamed/part_003` lines 135–146:

    for (const rid of ids) {
      if (seen.has(rid)) continue;
      const child = masterSlides.find((s) => s.id === rid);
      if (!child) continue;
      seen.add(rid);
      expanded.push(child);
      if (child.type === "mux" && child.panels) {
        addRef(child.panels.flatMap((p) => p.slides || []), seen);
      }
    }

Returns the slides pushed and the final seen-set; the attached proof records
that the shared seen-set only grows. -/
def addRef (M : List Slide) (ids : List String) (seen : List String) :
    { p : List Slide × List String // ∀ x ∈ seen, x ∈ p.2 } :=
  match ids with
  | [] => ⟨([], seen), fun _ h => h⟩
  | rid :: rest =>
    if hmem : rid ∈ seen then addRef M rest seen
    else
      match hfind : findSlide M (some rid) with
      | none => addRef M rest seen
      | some child =>
        if hrec : child.type = some "mux" ∧ child.panels.isSome then
          let r1 := addRef M (panelIds child) (rid :: seen)
          let r2 := addRef M rest r1.val.2
          ⟨(child :: (r1.val.1 ++ r2.val.1), r2.val.2),
            fun x hx => r2.property x (r1.property x (List.mem_cons_of_mem _ hx))⟩
        else
          let r2 := addRef M rest (rid :: seen)
          ⟨(child :: r2.val.1, r2.val.2),
            fun x hx => r2.property x (List.mem_cons_of_mem _ hx)⟩
termination_by (unseenCount M seen, ids.length)
decreasing_by
  · apply Prod.Lex.right
    simp
  · apply Prod.Lex.right
    simp
  · apply Prod.Lex.left
    exact unseenCount_cons_lt (mem_masterIds_of_findSlide hfind) hmem
  · apply Prod.Lex.left
    calc unseenCount M r1.val.2
        ≤ unseenCount M (rid :: seen) := unseenCount_le_of_grow r1.property
      _ < unseenCount M seen :=
          unseenCount_cons_lt (mem_masterIds_of_findSlide hfind) hmem
  · apply Prod.Lex.left
    exact unseenCount_cons_lt (mem_masterIds_of_findSlide hfind) hmem

/-- The whole mux branch (lines 133–148): push the composite slide itself,
then `addRef(slide.panels.flatMap((p) => p.slides || []))` with a fresh
seen-set. -/
def muxExpand (M : List Slide) (slide : Slide) : List Slide :=
  slide :: (addRef M (panelIds slide) []).val.1

/-- Ids of a list of slides, in order (slides without an `id` contribute none). -/
def slideIds (l : List Slide) : List String := l.filterMap (fun s => s.id)

/-- One expansion hop of the mux walk: `r`'s library slide is a mux with
panels and lists `y` among its panel references. -/
def stepRel (M : List Slide) (r y : String) : Prop :=
  ∃ c, findSlide M (some r) = some c ∧ c.type = some "mux" ∧
    c.panels.isSome = true ∧ y ∈ panelIds c

/-- The ids the `addRef` walk can reach from a root list: a root that exists
in the library, or a panel reference (of an existing slide) of an already
reachable mux. -/
inductive Reach (M : List Slide) (roots : List String) : String → Prop
  | base {r : String} : r ∈ roots → (findSlide M (some r)).isSome = true →
      Reach M roots r
  | step {r y : String} : Reach M roots r → stepRel M r y →
      (findSlide M (some y)).isSome = true → Reach M roots y

theorem Reach.mono {M : List Slide} {roots roots' : List String}
    (hsub : ∀ x ∈ roots, x ∈ roots') {x : String} (h : Reach M roots x) :
    Reach M roots' x := by
  induction h with
  | base hm hf => exact Reach.base (hsub _ hm) hf
  | step _ hs hf ih => exact Reach.step ih hs hf

theorem Reach.through {M : List Slide} {roots : List String} {r : String}
    {c : Slide} (hr : Reach M roots r) (hfind : findSlide M (some r) = some c)
    (hmux : c.type = some "mux") (hp : c.panels.isSome = true) {x : String}
    (h : Reach M (panelIds c) x) : Reach M roots x := by
  induction h with
  | base hm hf => exact Reach.step hr ⟨c, hfind, hmux, hp, hm⟩ hf
  | step _ hs hf ih => exact Reach.step ih hs hf

theorem addRef_nil (M : List Slide) (seen : List String) :
    (addRef M [] seen).val = ([], seen) := by
  rw [addRef]

theorem addRef_cons_seen (M : List Slide) (rid : String) (rest seen : List String)
    (h : rid ∈ seen) : addRef M (rid :: rest) seen = addRef M rest seen := by
  rw [addRef]
  simp [h]

theorem addRef_cons_missing (M : List Slide) (rid : String) (rest seen : List String)
    (h : rid ∉ seen) (hf : findSlide M (some rid) = none) :
    addRef M (rid :: rest) seen = addRef M rest seen := by
  rw [addRef, dif_neg h]
  split <;> simp_all

theorem addRef_cons_found_mux (M : List Slide) (rid : String) (rest seen : List String)
    (child : Slide) (h : rid ∉ seen) (hf : findSlide M (some rid) = some child)
    (hr : child.type = some "mux" ∧ child.panels.isSome = true) :
    (addRef M (rid :: rest) seen).val =
      (child :: ((addRef M (panelIds child) (rid :: seen)).val.1 ++
        (addRef M rest (addRef M (panelIds child) (rid :: seen)).val.2).val.1),
       (addRef M rest (addRef M (panelIds child) (rid :: seen)).val.2).val.2) := by
  rw [addRef, dif_neg h]
  split
  · simp_all
  · rename_i child' heq
    have hc : child' = child := by rw [heq] at hf; exact Option.some.inj hf
    subst hc
    rw [dif_pos hr]

theorem addRef_cons_found_other (M : List Slide) (rid : String) (rest seen : List String)
    (child : Slide) (h : rid ∉ seen) (hf : findSlide M (some rid) = some child)
    (hr : ¬ (child.type = some "mux" ∧ child.panels.isSome = true)) :
    (addRef M (rid :: rest) seen).val =
      (child :: (addRef M rest (rid :: seen)).val.1,
       (addRef M rest (rid :: seen)).val.2) := by
  rw [addRef, dif_neg h]
  split
  · simp_all
  · rename_i child' heq
    have hc : child' = child := by rw [heq] at hf; exact Option.some.inj hf
    subst hc
    rw [dif_neg hr]

/-- Everything `addRef` guarantees in one bundle: the final seen-set is the
emitted ids plus the initial one; every emitted slide is the library slide of
its id; emitted ids are distinct and disjoint from the initial seen-set;
every emitted id is reachable from the id list; every existing root id ends
up in the final seen-set; and every existing panel reference of an emitted
slide ends up in the final seen-set. -/
structure AddRefInv (M : List Slide) (ids seen : List String) : Prop where
  seenEq : ∀ x, x ∈ (addRef M ids seen).val.2 ↔
      x ∈ slideIds (addRef M ids seen).val.1 ∨ x ∈ seen
  objs : ∀ s ∈ (addRef M ids seen).val.1,
      ∃ rid, s.id = some rid ∧ findSlide M (some rid) = some s
  nodup : (slideIds (addRef M ids seen).val.1).Nodup
  fresh : ∀ x ∈ slideIds (addRef M ids seen).val.1, x ∉ seen
  sound : ∀ x ∈ slideIds (addRef M ids seen).val.1, Reach M ids x
  roots : ∀ x ∈ ids, (findSlide M (some x)).isSome = true →
      x ∈ (addRef M ids seen).val.2
  closed : ∀ x ∈ slideIds (addRef M ids seen).val.1, ∀ y, stepRel M x y →
      (findSlide M (some y)).isSome = true → y ∈ (addRef M ids seen).val.2

theorem addRef_inv (M : List Slide) (ids seen : List String) : AddRefInv M ids seen := by
  induction ids, seen using addRef.induct M with
  | case1 seen =>
    constructor <;> simp [addRef_nil, slideIds]
  | case2 seen rid rest hmem ih =>
    have he : addRef M (rid :: rest) seen = addRef M rest seen :=
      addRef_cons_seen M rid rest seen hmem
    refine ⟨?_, ?_, ?_, ?_, ?_, ?_, ?_⟩ <;> rw [he]
    · exact ih.seenEq
    · exact ih.objs
    · exact ih.nodup
    · exact ih.fresh
    · exact fun x hx => (ih.sound x hx).mono (fun a ha => List.mem_cons_of_mem _ ha)
    · intro x hx hf
      rcases List.mem_cons.mp hx with h | h
      · exact h ▸ (addRef M rest seen).property rid hmem
      · exact ih.roots x h hf
    · exact ih.closed
  | case3 seen rid rest hmem hfind ih =>
    have he : addRef M (rid :: rest) seen = addRef M rest seen :=
      addRef_cons_missing M rid rest seen hmem hfind
    refine ⟨?_, ?_, ?_, ?_, ?_, ?_, ?_⟩ <;> rw [he]
    · exact ih.seenEq
    · exact ih.objs
    · exact ih.nodup
    · exact ih.fresh
    · exact fun x hx => (ih.sound x hx).mono (fun a ha => List.mem_cons_of_mem _ ha)
    · intro x hx hf
      rcases List.mem_cons.mp hx with h | h
      · rw [h, hfind] at hf; simp at hf
      · exact ih.roots x h hf
    · exact ih.closed
  | case4 seen rid rest hmem child hfind hrec r1 ih1 ihr1 ih2 =>
    have hid : child.id = some rid := (findSlide_eq_some hfind).1
    have hv := addRef_cons_found_mux M rid rest seen child hmem hfind hrec
    set A := addRef M (panelIds child) (rid :: seen) with hA
    set B := addRef M rest A.val.2 with hB
    have h1 : (addRef M (rid :: rest) seen).val.1 = child :: (A.val.1 ++ B.val.1) := by
      rw [hv]
    have h2 : (addRef M (rid :: rest) seen).val.2 = B.val.2 := by rw [hv]
    have hsl : slideIds (addRef M (rid :: rest) seen).val.1
        = rid :: (slideIds A.val.1 ++ slideIds B.val.1) := by
      rw [h1]; simp [slideIds, hid]
    refine ⟨?_, ?_, ?_, ?_, ?_, ?_, ?_⟩
    · intro x
      rw [h2, hsl]
      have e2 := ih2.seenEq x
      have e1 := ih1.seenEq x
      simp only [List.mem_cons, List.mem_append] at *
      tauto
    · intro s hs
      rw [h1] at hs
      rcases List.mem_cons.mp hs with h | h
      · exact ⟨rid, h ▸ hid, h ▸ hfind⟩
      · rcases List.mem_append.mp h with h' | h'
        · exact ih1.objs s h'
        · exact ih2.objs s h'
    · rw [hsl]
      refine List.nodup_cons.mpr ⟨?_, List.Nodup.append ih1.nodup ih2.nodup ?_⟩
      · intro hx
        rcases List.mem_append.mp hx with h | h
        · exact ih1.fresh rid h (List.mem_cons_self _ _)
        · exact ih2.fresh rid h (A.property rid (List.mem_cons_self _ _))
      · intro a haA haB
        exact ih2.fresh a haB ((ih1.seenEq a).mpr (Or.inl haA))
    · intro x hx
      rw [hsl] at hx
      rcases List.mem_cons.mp hx with h | h
      · exact h ▸ hmem
      · rcases List.mem_append.mp h with h' | h'
        · exact fun hs => ih1.fresh x h' (List.mem_cons_of_mem _ hs)
        · exact fun hs => ih2.fresh x h' (A.property x (List.mem_cons_of_mem _ hs))
    · intro x hx
      rw [hsl] at hx
      have hbase : Reach M (rid :: rest) rid :=
        Reach.base (List.mem_cons_self _ _) (by simp [hfind])
      rcases List.mem_cons.mp hx with h | h
      · exact h ▸ hbase
      · rcases List.mem_append.mp h with h' | h'
        · exact hbase.through hfind hrec.1 hrec.2 (ih1.sound x h')
        · exact (ih2.sound x h').mono (fun a ha => List.mem_cons_of_mem _ ha)
    · intro x hx hf
      rw [h2]
      rcases List.mem_cons.mp hx with h | h
      · exact h ▸ B.property rid (A.property rid (List.mem_cons_self _ _))
      · exact ih2.roots x h hf
    · intro x hx y hy hf
      rw [h2]
      rw [hsl] at hx
      rcases List.mem_cons.mp hx with h | h
      · subst h
        obtain ⟨c, hc, hcm, hcp, hyp⟩ := hy
        rw [hfind] at hc
        cases Option.some.inj hc
        exact B.property y (ih1.roots y hyp hf)
      · rcases List.mem_append.mp h with h' | h'
        · exact B.property y (ih1.closed x h' y hy hf)
        · exact ih2.closed x h' y hy hf
  | case5 seen rid rest hmem child hfind hrec ih =>
    have hid : child.id = some rid := (findSlide_eq_some hfind).1
    have hv := addRef_cons_found_other M rid rest seen child hmem hfind hrec
    set B := addRef M rest (rid :: seen) with hB
    have h1 : (addRef M (rid :: rest) seen).val.1 = child :: B.val.1 := by rw [hv]
    have h2 : (addRef M (rid :: rest) seen).val.2 = B.val.2 := by rw [hv]
    have hsl : slideIds (addRef M (rid :: rest) seen).val.1 = rid :: slideIds B.val.1 := by
      rw [h1]; simp [slideIds, hid]
    refine ⟨?_, ?_, ?_, ?_, ?_, ?_, ?_⟩
    · intro x
      rw [h2, hsl]
      have e := ih.seenEq x
      simp only [List.mem_cons] at *
      tauto
    · intro s hs
      rw [h1] at hs
      rcases List.mem_cons.mp hs with h | h
      · exact ⟨rid, h ▸ hid, h ▸ hfind⟩
      · exact ih.objs s h
    · rw [hsl]
      refine List.nodup_cons.mpr ⟨?_, ih.nodup⟩
      exact fun hx => ih.fresh rid hx (List.mem_cons_self _ _)
    · intro x hx
      rw [hsl] at hx
      rcases List.mem_cons.mp hx with h | h
      · exact h ▸ hmem
      · exact fun hs => ih.fresh x h (List.mem_cons_of_mem _ hs)
    · intro x hx
      rw [hsl] at hx
      rcases List.mem_cons.mp hx with h | h
      · subst h
        exact Reach.base (List.mem_cons_self _ _) (by rw [hfind]; rfl)
      · exact (ih.sound x h).mono (fun a ha => List.mem_cons_of_mem _ ha)
    · intro x hx hf
      rw [h2]
      rcases List.mem_cons.mp hx with h | h
      · exact h ▸ B.property rid (List.mem_cons_self _ _)
      · exact ih.roots x h hf
    · intro x hx y hy hf
      rw [h2]
      rw [hsl] at hx
      rcases List.mem_cons.mp hx with h | h
      · subst h
        obtain ⟨c, hc, hcm, hcp, hyp⟩ := hy
        rw [hfind] at hc
        cases Option.some.inj hc
        exact absurd ⟨hcm, hcp⟩ hrec
      · exact ih.closed x h y hy hf

theorem addRef_complete (M : List Slide) (roots : List String) {x : String}
    (h : Reach M roots x) : x ∈ slideIds (addRef M roots []).val.1 := by
  have hin : AddRefInv M roots [] := addRef_inv M roots []
  have hseen : x ∈ (addRef M roots []).val.2 := by
    induction h with
    | base hm hf => exact hin.roots _ hm hf
    | step hr hs hf ih =>
      have hrout := (hin.seenEq _).mp ih
      simp only [List.not_mem_nil, or_false] at hrout
      exact hin.closed _ hrout _ hs hf
  have := (hin.seenEq x).mp hseen
  simpa using this

theorem length_filter_id_eq (rid : String) :
    ∀ (l : List Slide), (slideIds l).Nodup →
      (l.filter (fun s => decide (s.id = some rid))).length =
        if rid ∈ slideIds l then 1 else 0
  | [], _ => by simp [slideIds]
  | s :: t, hnd => by
    match hs : s.id with
    | some a =>
      have hids : slideIds (s :: t) = a :: slideIds t := by simp [slideIds, hs]
      rw [hids] at hnd ⊢
      have hna : a ∉ slideIds t := (List.nodup_cons.mp hnd).1
      have ih := length_filter_id_eq rid t (List.nodup_cons.mp hnd).2
      by_cases har : a = rid
      · subst har
        rw [List.filter_cons, if_pos (by simp [hs]), List.length_cons, ih,
          if_neg hna, if_pos (List.mem_cons_self a (slideIds t))]
      · rw [List.filter_cons, if_neg (by simp [hs, har]), ih]
        by_cases hrt : rid ∈ slideIds t
        · rw [if_pos hrt, if_pos (List.mem_cons_of_mem _ hrt)]
        · rw [if_neg hrt, if_neg (fun h => by
            rcases List.mem_cons.mp h with h1 | h1
            · exact har h1.symm
            · exact hrt h1)]
    | none =>
      have hids : slideIds (s :: t) = slideIds t := by simp [slideIds, hs]
      rw [hids] at hnd ⊢
      rw [List.filter_cons, if_neg (by simp [hs])]
      exact length_filter_id_eq rid t hnd

/-- C1: for every slide library and every mux slide whose panel references
(directly or transitively) include its own id, resolving a playlist that
includes that mux terminates (`addRef`/`muxExpand` are total functions) and
yields a finite list with the composite mux descriptor emitted first,
followed by an expansion in which each slide reachable from the mux's panels
appears exactly once and nothing else appears; a previously-seen id within
the same mux expansion is skipped silently (last conjunct), never re-emitted
and never an error. -/
theorem mux_cycle_safe (M : List Slide) (slide : Slide) (sid : String)
    (hmux : slide.type = some "mux") (hid : slide.id = some sid)
    (hfind : findSlide M (some sid) = some slide)
    (hself : Reach M (panelIds slide) sid) :
    (muxExpand M slide).head? = some slide ∧
    (∀ rid : String, Reach M (panelIds slide) rid →
      ((muxExpand M slide).tail.filter (fun s => decide (s.id = some rid))).length = 1) ∧
    (∀ rid : String, ¬ Reach M (panelIds slide) rid →
      ((muxExpand M slide).tail.filter (fun s => decide (s.id = some rid))).length = 0) ∧
    (∀ (ids seen : List String) (rid : String), rid ∈ seen →
      addRef M (rid :: ids) seen = addRef M ids seen) := by
  have hin := addRef_inv M (panelIds slide) []
  have htail : (muxExpand M slide).tail = (addRef M (panelIds slide) []).val.1 := rfl
  refine ⟨rfl, ?_, ?_, ?_⟩
  · intro rid hr
    rw [htail, length_filter_id_eq rid _ hin.nodup,
      if_pos (addRef_complete M (panelIds slide) hr)]
  · intro rid hr
    rw [htail, length_filter_id_eq rid _ hin.nodup,
      if_neg (fun hmem => hr (hin.sound rid hmem))]
  · intro ids seen rid hrid
    exact addRef_cons_seen M rid ids seen hrid

def muxSelf : Slide :=
  { emptySlide with id := some "m", type := some "mux", panels := some [⟨some ["m"]⟩] }

def muxLib : List Slide := [muxSelf]

theorem mux_cycle_safe_witness :
    (muxExpand muxLib muxSelf).head? = some muxSelf ∧
    ((muxExpand muxLib muxSelf).tail.filter
      (fun s => decide (s.id = some "m"))).length = 1 := by
  have hself : Reach muxLib (panelIds muxSelf) "m" :=
    Reach.base (by simp [panelIds, muxSelf, emptySlide]) (by decide)
  have h := mux_cycle_safe muxLib muxSelf "m" rfl rfl (by decide) hself
  exact ⟨h.1, h.2.1 "m" hself⟩

theorem FS.lookup_write_self (fs : FS) (r : Root) (p : String) (b : Bytes) :
    (fs.write r p b).lookup r p = some b := by
  simp [FS.lookup, FS.write, findFile]

theorem FS.lookup_write_other_root (fs : FS) (p q : String) (b : Bytes) :
    (fs.write Root.cache p b).lookup Root.photos q = fs.lookup Root.photos q := by
  simp [FS.lookup, FS.write, findFile]

theorem FS.lookup_write_other_path (fs : FS) (r : Root) (p q : String) (b : Bytes)
    (h : q ≠ p) : (fs.write r p b).lookup r q = fs.lookup r q := by
  simp only [FS.lookup, FS.write, findFile]
  rw [if_neg (fun hc => h hc.2.symm)]

/-- C2: memoization.  If the cached file already exists, `ensureCached` does
no transform work, changes no file, and immediately returns the cached
reference.  Consequently two successive calls on the same path do the
resize/copy at most once: the second call never performs a transform, changes
no file, and returns the same reference as the first. -/
theorem ensureCached_memoized (ops : ImageOps) (fs : FS) (rel : String)
    (maxW maxH : Nat) :
    ((fs.lookup Root.cache rel).isSome = true →
      ensureCached ops fs rel maxW maxH = ⟨fs, cacheRef rel, false, false⟩) ∧
    ((ensureCached ops (ensureCached ops fs rel maxW maxH).fs rel maxW maxH).fs
        = (ensureCached ops fs rel maxW maxH).fs ∧
     (ensureCached ops (ensureCached ops fs rel maxW maxH).fs rel maxW maxH).ref
        = (ensureCached ops fs rel maxW maxH).ref ∧
     (ensureCached ops (ensureCached ops fs rel maxW maxH).fs rel maxW maxH).transformed
        = false) := by
  constructor
  · intro h
    simp [ensureCached, h]
  · by_cases h1 : (fs.lookup Root.cache rel).isSome = true
    · simp [ensureCached, h1]
    · match h2 : fs.lookup Root.photos rel with
      | none => simp [ensureCached, h1, h2]
      | some src =>
        match h3 : ops.metadata src with
        | none => simp [ensureCached, h1, h2, h3]
        | some meta =>
          by_cases h4 : meta.width > maxW ∨ meta.height > maxH
          · match h5 : ops.resize src (min meta.width maxW) (min meta.height maxH) with
            | none => simp [ensureCached, h1, h2, h3, h4, h5]
            | some out =>
              have hc : ((fs.write Root.cache rel out).lookup Root.cache rel).isSome = true := by
                rw [FS.lookup_write_self]; rfl
              simp [ensureCached, h1, h2, h3, h4, h5, hc]
          · have hc : ((fs.write Root.cache rel src).lookup Root.cache rel).isSome = true := by
              rw [FS.lookup_write_self]; rfl
            simp [ensureCached, h1, h2, h3, h4, hc]

theorem cacheRef_ne_photosRef (rel : String) : cacheRef rel ≠ photosRef rel := by
  intro h
  have hlen := congrArg String.length h
  have e1 : ("/cache/" : String).length = 7 := rfl
  have e2 : ("/photos/" : String).length = 8 := rfl
  simp only [cacheRef, photosRef, String.length_append, e1, e2] at hlen
  omega

/-- The six exhaustive outcomes of `ensureCached`: cache hit, missing source,
decode error, resize/write error, completed resize, completed copy. -/
theorem ensureCached_cases (ops : ImageOps) (fs : FS) (rel : String)
    (maxW maxH : Nat) :
    (∃ b, fs.lookup Root.cache rel = some b ∧
      ensureCached ops fs rel maxW maxH = ⟨fs, cacheRef rel, false, false⟩) ∨
    (fs.lookup Root.cache rel = none ∧ fs.lookup Root.photos rel = none ∧
      ensureCached ops fs rel maxW maxH = ⟨fs, photosRef rel, false, false⟩) ∨
    (∃ src, fs.lookup Root.cache rel = none ∧
      fs.lookup Root.photos rel = some src ∧ ops.metadata src = none ∧
      ensureCached ops fs rel maxW maxH = ⟨fs, photosRef rel, false, false⟩) ∨
    (∃ src meta, fs.lookup Root.cache rel = none ∧
      fs.lookup Root.photos rel = some src ∧ ops.metadata src = some meta ∧
      (meta.width > maxW ∨ meta.height > maxH) ∧
      ops.resize src (min meta.width maxW) (min meta.height maxH) = none ∧
      ensureCached ops fs rel maxW maxH = ⟨fs, photosRef rel, false, false⟩) ∨
    (∃ src meta out, fs.lookup Root.cache rel = none ∧
      fs.lookup Root.photos rel = some src ∧ ops.metadata src = some meta ∧
      (meta.width > maxW ∨ meta.height > maxH) ∧
      ops.resize src (min meta.width maxW) (min meta.height maxH) = some out ∧
      ensureCached ops fs rel maxW maxH =
        ⟨fs.write Root.cache rel out, cacheRef rel, true, true⟩) ∨
    (∃ src meta, fs.lookup Root.cache rel = none ∧
      fs.lookup Root.photos rel = some src ∧ ops.metadata src = some meta ∧
      ¬ (meta.width > maxW ∨ meta.height > maxH) ∧
      ensureCached ops fs rel maxW maxH =
        ⟨fs.write Root.cache rel src, cacheRef rel, true, false⟩) := by
  by_cases h1 : (fs.lookup Root.cache rel).isSome = true
  · rcases Option.isSome_iff_exists.mp h1 with ⟨b, hb⟩
    exact Or.inl ⟨b, hb, by simp [ensureCached, h1]⟩
  · have h1n : fs.lookup Root.cache rel = none := by
      cases hh : fs.lookup Root.cache rel
      · rfl
      · rw [hh] at h1; simp at h1
    match h2 : fs.lookup Root.photos rel with
    | none => exact Or.inr (Or.inl ⟨h1n, rfl, by simp [ensureCached, h1, h2]⟩)
    | some src =>
      match h3 : ops.metadata src with
      | none =>
        exact Or.inr (Or.inr (Or.inl ⟨src, h1n, rfl, h3, by simp [ensureCached, h1, h2, h3]⟩))
      | some meta =>
        by_cases h4 : meta.width > maxW ∨ meta.height > maxH
        · match h5 : ops.resize src (min meta.width maxW) (min meta.height maxH) with
          | none =>
            exact Or.inr (Or.inr (Or.inr (Or.inl ⟨src, meta, h1n, rfl, h3, h4, h5,
              by simp [ensureCached, h1, h2, h3, h4, h5]⟩)))
          | some out =>
            exact Or.inr (Or.inr (Or.inr (Or.inr (Or.inl ⟨src, meta, out, h1n, rfl, h3, h4, h5,
              by simp [ensureCached, h1, h2, h3, h4, h5]⟩))))
        · exact Or.inr (Or.inr (Or.inr (Or.inr (Or.inr ⟨src, meta, h1n, rfl, h3, h4,
            by simp [ensureCached, h1, h2, h3, h4]⟩))))
/-- C3: every reference returned by `ensureCached` is `/cache/<relPath>` or
`/photos/<relPath>` (forward-slash normalized); each caught error — missing
source at metadata read, decode failure, resize/write failure — yields the
original `/photos/<relPath>` reference instead of propagating (the function
is total), leaving the filesystem untouched; a cache hit or a completed
transform yields `/cache/<relPath>`. -/
theorem ensureCached_degrades (ops : ImageOps) (fs : FS) (rel : String)
    (maxW maxH : Nat) :
    ((ensureCached ops fs rel maxW maxH).ref = cacheRef rel ∨
      (ensureCached ops fs rel maxW maxH).ref = photosRef rel) ∧
    (fs.lookup Root.cache rel = none → fs.lookup Root.photos rel = none →
      (ensureCached ops fs rel maxW maxH).ref = photosRef rel) ∧
    (∀ src, fs.lookup Root.cache rel = none →
      fs.lookup Root.photos rel = some src → ops.metadata src = none →
      (ensureCached ops fs rel maxW maxH).ref = photosRef rel) ∧
    (∀ src meta, fs.lookup Root.cache rel = none →
      fs.lookup Root.photos rel = some src → ops.metadata src = some meta →
      (meta.width > maxW ∨ meta.height > maxH) →
      ops.resize src (min meta.width maxW) (min meta.height maxH) = none →
      (ensureCached ops fs rel maxW maxH).ref = photosRef rel) ∧
    ((ensureCached ops fs rel maxW maxH).transformed = true ∨
        (fs.lookup Root.cache rel).isSome = true →
      (ensureCached ops fs rel maxW maxH).ref = cacheRef rel) ∧
    ((ensureCached ops fs rel maxW maxH).ref = photosRef rel →
      (ensureCached ops fs rel maxW maxH).fs = fs) := by
  have hne := cacheRef_ne_photosRef rel
  rcases ensureCached_cases ops fs rel maxW maxH with
    ⟨b, hb, heq⟩ | ⟨hc, hp, heq⟩ | ⟨src, hc, hp, hm, heq⟩ |
    ⟨src, meta, hc, hp, hm, hd, hr, heq⟩ | ⟨src, meta, out, hc, hp, hm, hd, hr, heq⟩ |
    ⟨src, meta, hc, hp, hm, hd, heq⟩ <;> rw [heq]
  · refine ⟨Or.inl rfl, ?_, ?_, ?_, fun _ => rfl, fun _ => rfl⟩
    · intro h _; rw [hb] at h; exact Option.noConfusion h
    · intro s h _ _; rw [hb] at h; exact Option.noConfusion h
    · intro s m h _ _ _ _; rw [hb] at h; exact Option.noConfusion h
  · refine ⟨Or.inr rfl, fun _ _ => rfl, fun _ _ _ _ => rfl,
      fun _ _ _ _ _ _ _ => rfl, ?_, fun _ => rfl⟩
    intro h
    rcases h with h | h
    · simp at h
    · rw [hc] at h; simp at h
  · refine ⟨Or.inr rfl, fun _ _ => rfl, fun _ _ _ _ => rfl,
      fun _ _ _ _ _ _ _ => rfl, ?_, fun _ => rfl⟩
    intro h
    rcases h with h | h
    · simp at h
    · rw [hc] at h; simp at h
  · refine ⟨Or.inr rfl, fun _ _ => rfl, fun _ _ _ _ => rfl,
      fun _ _ _ _ _ _ _ => rfl, ?_, fun _ => rfl⟩
    intro h
    rcases h with h | h
    · simp at h
    · rw [hc] at h; simp at h
  · refine ⟨Or.inl rfl, ?_, ?_, ?_, fun _ => rfl, fun h => absurd h hne⟩
    · intro _ h; rw [hp] at h; exact Option.noConfusion h
    · intro s _ hps hmn
      rw [hp] at hps
      cases Option.some.inj hps
      rw [hm] at hmn
      exact Option.noConfusion hmn
    · intro s m _ hps hmm _ hrr
      rw [hp] at hps
      cases Option.some.inj hps
      rw [hm] at hmm
      cases Option.some.inj hmm
      rw [hr] at hrr
      exact Option.noConfusion hrr
  · refine ⟨Or.inl rfl, ?_, ?_, ?_, fun _ => rfl, fun h => absurd h hne⟩
    · intro _ h; rw [hp] at h; exact Option.noConfusion h
    · intro s _ hps hmn
      rw [hp] at hps
      cases Option.some.inj hps
      rw [hm] at hmn
      exact Option.noConfusion hmn
    · intro s m _ hps hmm hdim _
      rw [hp] at hps
      cases Option.some.inj hps
      rw [hm] at hmm
      cases Option.some.inj hmm
      exact absurd hdim hd

/-- C4: when the source dimensions both fit the bounding box, the first call
copies the source bytes verbatim to the cached path (cached output is
byte-identical, no resize pipeline); and a resize is only ever performed when
the decoded width or height exceeds the box. -/
theorem ensureCached_copies_small (ops : ImageOps) (fs : FS) (rel : String)
    (src : Bytes) (meta : Metadata)
    (hmiss : fs.lookup Root.cache rel = none)
    (hsrc : fs.lookup Root.photos rel = some src)
    (hmeta : ops.metadata src = some meta)
    (hw : meta.width ≤ 1920) (hh : meta.height ≤ 1080) :
    (ensureCached ops fs rel 1920 1080 =
      ⟨fs.write Root.cache rel src, cacheRef rel, true, false⟩) ∧
    (ensureCached ops fs rel 1920 1080).fs.lookup Root.cache rel = some src ∧
    (∀ (fs' : FS) (src' : Bytes) (meta' : Metadata),
      fs'.lookup Root.photos rel = some src' → ops.metadata src' = some meta' →
      (ensureCached ops fs' rel 1920 1080).resized = true →
      meta'.width > 1920 ∨ meta'.height > 1080) := by
  have hdim : ¬ (meta.width > 1920 ∨ meta.height > 1080) := by omega
  have heq : ensureCached ops fs rel 1920 1080 =
      ⟨fs.write Root.cache rel src, cacheRef rel, true, false⟩ := by
    simp [ensureCached, hmiss, hsrc, hmeta, hdim]
  refine ⟨heq, ?_, ?_⟩
  · rw [heq]
    exact FS.lookup_write_self fs Root.cache rel src
  · intro fs' src' meta' hp' hm' hres
    rcases ensureCached_cases ops fs' rel 1920 1080 with
      ⟨b, hb, heq2⟩ | ⟨hc2, hp2, heq2⟩ | ⟨s2, hc2, hp2, hm2, heq2⟩ |
      ⟨s2, m2, hc2, hp2, hm2, hd2, hr2, heq2⟩ |
      ⟨s2, m2, o2, hc2, hp2, hm2, hd2, hr2, heq2⟩ |
      ⟨s2, m2, hc2, hp2, hm2, hd2, heq2⟩
    · rw [heq2] at hres; simp at hres
    · rw [heq2] at hres; simp at hres
    · rw [heq2] at hres; simp at hres
    · rw [heq2] at hres; simp at hres
    · rw [hp'] at hp2
      cases Option.some.inj hp2
      rw [hm'] at hm2
      cases Option.some.inj hm2
      exact hd2
    · rw [heq2] at hres; simp at hres

theorem ensureCached_photos_unchanged (ops : ImageOps) (fs : FS) (rel : String)
    (maxW maxH : Nat) (p : String) :
    (ensureCached ops fs rel maxW maxH).fs.lookup Root.photos p
      = fs.lookup Root.photos p := by
  rcases ensureCached_cases ops fs rel maxW maxH with
    ⟨b, hb, heq⟩ | ⟨hc, hp, heq⟩ | ⟨src, hc, hp, hm, heq⟩ |
    ⟨src, meta, hc, hp, hm, hd, hr, heq⟩ | ⟨src, meta, out, hc, hp, hm, hd, hr, heq⟩ |
    ⟨src, meta, hc, hp, hm, hd, heq⟩ <;> rw [heq]
  · exact FS.lookup_write_other_root fs rel p out
  · exact FS.lookup_write_other_root fs rel p src

theorem cacheAll_photos_unchanged (ops : ImageOps) (p : String) :
    ∀ (ps : List String) (fs : FS),
      (cacheAll ops fs ps).1.lookup Root.photos p = fs.lookup Root.photos p
  | [], fs => rfl
  | q :: ps, fs => by
    rw [show cacheAll ops fs (q :: ps)
        = ((cacheAll ops (ensureCached ops fs q 1920 1080).fs ps).1,
           (ensureCached ops fs q 1920 1080).ref ::
             (cacheAll ops (ensureCached ops fs q 1920 1080).fs ps).2) from rfl]
    rw [cacheAll_photos_unchanged ops p ps (ensureCached ops fs q 1920 1080).fs]
    exact ensureCached_photos_unchanged ops fs q 1920 1080 p

theorem prepareFrames_photos_unchanged (ops : ImageOps) (m : String → String → Bool)
    (fs : FS) (pattern : String) (p : String) :
    (prepareFrames ops m fs pattern).1.lookup Root.photos p = fs.lookup Root.photos p :=
  cacheAll_photos_unchanged ops p (matchesFor m fs pattern) fs

theorem processSlide_photos_unchanged (ops : ImageOps) (m : String → String → Bool)
    (fs : FS) (slide : Slide) (p : String) :
    (processSlide ops m fs slide).1.lookup Root.photos p = fs.lookup Root.photos p := by
  unfold processSlide
  split
  · rfl
  · split
    · rfl
    · split
      · dsimp only
        split
        · exact prepareFrames_photos_unchanged ops m fs _ p
        · exact prepareFrames_photos_unchanged ops m fs _ p
      · split
        · rfl
        · exact ensureCached_photos_unchanged ops fs _ 1920 1080 p

theorem processIds_photos_unchanged (ops : ImageOps) (m : String → String → Bool)
    (M : List Slide) (p : String) :
    ∀ (ids : List (Option String)) (fs : FS),
      (processIds ops m M fs ids).1.lookup Root.photos p = fs.lookup Root.photos p
  | [], fs => rfl
  | i :: rest, fs => by
    unfold processIds
    split
    · exact processIds_photos_unchanged ops m M p rest fs
    · rw [processIds_photos_unchanged ops m M p rest _]
      exact processSlide_photos_unchanged ops m fs _ p

theorem fallbackAll_photos_unchanged (ops : ImageOps) (p : String) :
    ∀ (slides : List Slide) (fs : FS),
      (fallbackAll ops fs slides).1.lookup Root.photos p = fs.lookup Root.photos p
  | [], fs => rfl
  | s :: rest, fs => by
    unfold fallbackAll
    split
    · exact fallbackAll_photos_unchanged ops p rest fs
    · split
      · exact fallbackAll_photos_unchanged ops p rest fs
      · rw [fallbackAll_photos_unchanged ops p rest _]
        exact ensureCached_photos_unchanged ops fs _ 1920 1080 p

theorem buildSlideshow_photos_unchanged (ops : ImageOps) (m : String → String → Bool)
    (cfg : Config) (fs : FS) (clientId : String) (p : String) :
    (buildSlideshow ops m cfg fs clientId).1.lookup Root.photos p
      = fs.lookup Root.photos p := by
  unfold buildSlideshow
  dsimp only
  split
  · rw [fallbackAll_photos_unchanged ops p (cfg.slides.getD []) _]
    exact processIds_photos_unchanged ops m (cfg.slides.getD []) p _ fs
  · exact processIds_photos_unchanged ops m (cfg.slides.getD []) p _ fs

/-- C9: `ensureCached` never creates, deletes, or modifies any file under the
photo root, and the only cache-root path it can touch is the mirrored
relative path; a whole playlist resolution leaves the photo root unchanged. -/
theorem ensureCached_writes_only_cache (ops : ImageOps) (fs : FS) (rel : String)
    (maxW maxH : Nat) :
    (∀ p, (ensureCached ops fs rel maxW maxH).fs.lookup Root.photos p
        = fs.lookup Root.photos p) ∧
    (∀ p, p ≠ rel → (ensureCached ops fs rel maxW maxH).fs.lookup Root.cache p
        = fs.lookup Root.cache p) ∧
    (∀ (m : String → String → Bool) (cfg : Config) (clientId : String) (p : String),
      (buildSlideshow ops m cfg fs clientId).1.lookup Root.photos p
        = fs.lookup Root.photos p) := by
  refine ⟨fun p => ensureCached_photos_unchanged ops fs rel maxW maxH p, ?_,
    fun m cfg clientId p => buildSlideshow_photos_unchanged ops m cfg fs clientId p⟩
  intro p hp
  rcases ensureCached_cases ops fs rel maxW maxH with
    ⟨b, hb, heq⟩ | ⟨hc, hpn, heq⟩ | ⟨src, hc, hpn, hm, heq⟩ |
    ⟨src, meta, hc, hpn, hm, hd, hr, heq⟩ | ⟨src, meta, out, hc, hpn, hm, hd, hr, heq⟩ |
    ⟨src, meta, hc, hpn, hm, hd, heq⟩ <;> rw [heq]
  · exact FS.lookup_write_other_path fs Root.cache rel p out hp
  · exact FS.lookup_write_other_path fs Root.cache rel p src hp

/-- C10: the playlist response is computed from the server's fixed client
identifier (environment variable or hostname, fixed at startup); the
filesystem outcome and slide list are identical for any two requests,
whatever their query parameters, headers, hostname or source address. -/
theorem slideshow_response_request_independent (ops : ImageOps)
    (m : String → String → Bool) (cfg : Config) (fs : FS)
    (env : Option String) (host : String) (req1 req2 : Request) :
    (slideshowHandler ops m cfg fs (clientIdAt env host) req1).2 =
    (slideshowHandler ops m cfg fs (clientIdAt env host) req2).2 := rfl

theorem cacheAll_refs (ops : ImageOps) :
    ∀ (ps : List String) (fs : FS),
      List.Forall₂ (fun r p => r = cacheRef p ∨ r = photosRef p)
        (cacheAll ops fs ps).2 ps
  | [], _ => List.Forall₂.nil
  | q :: ps, fs =>
    List.Forall₂.cons ((ensureCached_degrades ops fs q 1920 1080).1)
      (cacheAll_refs ops ps (ensureCached ops fs q 1920 1080).fs)

/-- C5: `prepareFrames` sorts the matched relative paths lexicographically
(keeping exactly the matches, as a permutation of the raw match list) and
maps each match in that order through `ensureCached` — one output reference
per match, elementwise corresponding to the sorted matches; an empty match
set yields an empty frame list. -/
theorem prepareFrames_sorted (ops : ImageOps) (m : String → String → Bool)
    (fs : FS) (pattern : String) :
    List.Sorted (fun a b : String => a ≤ b) (matchesFor m fs pattern) ∧
    (matchesFor m fs pattern).Perm (fs.photoPaths.filter (fun p => m pattern p)) ∧
    List.Forall₂ (fun r p => r = cacheRef p ∨ r = photosRef p)
      (prepareFrames ops m fs pattern).2 (matchesFor m fs pattern) ∧
    (prepareFrames ops m fs pattern).2.length
      = (fs.photoPaths.filter (fun p => m pattern p)).length ∧
    (fs.photoPaths.filter (fun p => m pattern p) = [] →
      (prepareFrames ops m fs pattern).2 = []) := by
  have hperm : (matchesFor m fs pattern).Perm
      (fs.photoPaths.filter (fun p => m pattern p)) :=
    List.mergeSort_perm _ _
  have hf2 := cacheAll_refs ops (matchesFor m fs pattern) fs
  refine ⟨List.sorted_mergeSort' _, hperm, hf2, ?_, ?_⟩
  · unfold prepareFrames
    rw [hf2.length_eq]
    exact hperm.length_eq
  · intro h
    have hm : matchesFor m fs pattern = [] := by
      unfold matchesFor
      rw [h]
      simp
    unfold prepareFrames
    rw [hm]
    rfl

theorem processIds_skips_unknown (ops : ImageOps) (m : String → String → Bool)
    (M : List Slide) :
    ∀ (ids : List (Option String)) (fs : FS),
      processIds ops m M fs ids
        = processIds ops m M fs (ids.filter (fun i => (findSlide M i).isSome))
  | [], _ => rfl
  | i :: rest, fs => by
    match hf : findSlide M i with
    | none =>
      have h1 : processIds ops m M fs (i :: rest) = processIds ops m M fs rest := by
        conv_lhs => unfold processIds
        rw [hf]
      have h2 : (i :: rest).filter (fun j => (findSlide M j).isSome)
          = rest.filter (fun j => (findSlide M j).isSome) := by
        rw [List.filter_cons, hf]; simp
      rw [h1, h2]
      exact processIds_skips_unknown ops m M rest fs
    | some s =>
      have h2 : (i :: rest).filter (fun j => (findSlide M j).isSome)
          = i :: rest.filter (fun j => (findSlide M j).isSome) := by
        rw [List.filter_cons, hf]; simp
      rw [h2]
      unfold processIds
      rw [hf]
      dsimp only
      rw [processIds_skips_unknown ops m M rest (processSlide ops m fs s).1]

/-- C6: an include list entry with no matching slide definition is skipped
and resolution continues — the loop produces exactly the output of the
remaining valid ids, in order, for both the filesystem and the descriptor
list; the loop is a total function, so no error is ever raised. -/
theorem resolution_skips_missing_ids (ops : ImageOps) (m : String → String → Bool)
    (M : List Slide) (ids : List (Option String)) (fs : FS) :
    processIds ops m M fs ids
      = processIds ops m M fs (ids.filter (fun i => (findSlide M i).isSome)) :=
  processIds_skips_unknown ops m M ids fs

/-- C7: the id list the resolver iterates: the client's own config entry when
present (its include list, inherited from the default entry when the client
entry has no include field), otherwise the default entry's include list; an
empty resulting include list falls back to the ids of every defined slide in
library definition order. -/
theorem idsToIterate_selection (cfg : Config) (clientId : String) :
    (∀ c l, lookupStr cfg.clients clientId = some c → c.include_ = some l →
      idsToIterate cfg clientId =
        (if l.isEmpty then (cfg.slides.getD []).map (fun s => s.id)
         else l.map some)) ∧
    (lookupStr cfg.clients clientId = none →
      idsToIterate cfg clientId =
        (if ((cfg.defaultCfg.getD emptyClientCfg).include_.getD []).isEmpty
         then (cfg.slides.getD []).map (fun s => s.id)
         else ((cfg.defaultCfg.getD emptyClientCfg).include_.getD []).map some)) ∧
    (∀ c, lookupStr cfg.clients clientId = some c → c.include_ = none →
      idsToIterate cfg clientId =
        (if ((cfg.defaultCfg.getD emptyClientCfg).include_.getD []).isEmpty
         then (cfg.slides.getD []).map (fun s => s.id)
         else ((cfg.defaultCfg.getD emptyClientCfg).include_.getD []).map some)) := by
  refine ⟨?_, ?_, ?_⟩
  · intro c l hc hl
    unfold idsToIterate includeIdsOf clientCfgOf
    rw [hc, hl]
  · intro hc
    unfold idsToIterate includeIdsOf clientCfgOf
    rw [hc]
    match hd : (cfg.defaultCfg.getD emptyClientCfg).include_ with
    | some d => rfl
    | none => rfl
  · intro c hc hl
    unfold idsToIterate includeIdsOf clientCfgOf
    rw [hc, hl]

theorem fallbackAll_ne_nil (ops : ImageOps) :
    ∀ (slides : List Slide) (fs : FS),
      (∃ s ∈ slides, ∃ f, s.file = some f ∧ f ≠ "") →
      (fallbackAll ops fs slides).2 ≠ []
  | [], fs => by simp
  | s :: rest, fs => by
    rintro ⟨w, hw, f, hf, hfne⟩
    match hsf : s.file with
    | none =>
      have hstep : fallbackAll ops fs (s :: rest) = fallbackAll ops fs rest := by
        conv_lhs => unfold fallbackAll
        rw [hsf]
      rw [hstep]
      apply fallbackAll_ne_nil ops rest fs
      rcases List.mem_cons.mp hw with h | h
      · subst h; rw [hsf] at hf; exact Option.noConfusion hf
      · exact ⟨w, h, f, hf, hfne⟩
    | some g =>
      by_cases hg : g = ""
      · have hstep : fallbackAll ops fs (s :: rest) = fallbackAll ops fs rest := by
          conv_lhs => unfold fallbackAll
          rw [hsf]
          simp [hg]
        rw [hstep]
        apply fallbackAll_ne_nil ops rest fs
        rcases List.mem_cons.mp hw with h | h
        · subst h
          rw [hsf] at hf
          cases Option.some.inj hf
          exact absurd hg hfne
        · exact ⟨w, h, f, hf, hfne⟩
      · have hstep : (fallbackAll ops fs (s :: rest)).2
            = stillDesc s (ensureCached ops fs g 1920 1080).ref ::
              (fallbackAll ops (ensureCached ops fs g 1920 1080).fs rest).2 := by
          conv_lhs => unfold fallbackAll
          rw [hsf]
          simp [hg]
        rw [hstep]
        simp

/-- C8: if the loop over the include list expanded nothing, `buildSlideshow`
returns the fallback pass over every slide definition with a (truthy) file,
ignoring the include list; hence a client with no config entry and no default
include list gets a non-empty playlist whenever the library holds at least
one slide with a file. -/
theorem buildSlideshow_fallback (ops : ImageOps) (m : String → String → Bool)
    (cfg : Config) (fs : FS) (clientId : String) :
    ((processIds ops m (cfg.slides.getD []) fs (idsToIterate cfg clientId)).2 = [] →
      buildSlideshow ops m cfg fs clientId =
        fallbackAll ops
          (processIds ops m (cfg.slides.getD []) fs (idsToIterate cfg clientId)).1
          (cfg.slides.getD [])) ∧
    (lookupStr cfg.clients clientId = none →
      (cfg.defaultCfg.getD emptyClientCfg).include_.getD [] = [] →
      (∃ s ∈ cfg.slides.getD [], ∃ f, s.file = some f ∧ f ≠ "") →
      (buildSlideshow ops m cfg fs clientId).2 ≠ []) := by
  constructor
  · intro h
    unfold buildSlideshow
    dsimp only
    rw [if_pos (by rw [h]; rfl)]
  · intro _ _ hex
    unfold buildSlideshow
    dsimp only
    by_cases he : (processIds ops m (cfg.slides.getD []) fs
        (idsToIterate cfg clientId)).2.isEmpty
    · rw [if_pos he]
      exact fallbackAll_ne_nil ops (cfg.slides.getD []) _ hex
    · rw [if_neg he]
      intro hnil
      rw [hnil] at he
      exact he rfl

/-! Concrete fixtures for the witnesses. -/

def opsNone : ImageOps := ⟨fun _ => none, fun _ _ _ => none⟩

def opsSmall : ImageOps := ⟨fun _ => some ⟨800, 600⟩, fun _ _ _ => none⟩

def fsEmpty : FS := ⟨[]⟩

def fsCached : FS := ⟨[(Root.cache, "a.jpg", [1])]⟩

def fsPhoto : FS := ⟨[(Root.photos, "a.jpg", [7])]⟩

def slideA : Slide := { emptySlide with id := some "a", file := some "a.jpg" }

def cfgClient : Config := ⟨some [slideA], [("k", ⟨some ["a"]⟩)], none⟩

def cfgBare : Config := ⟨some [slideA], [], none⟩

theorem ensureCached_memoized_witness :
    ensureCached opsNone fsCached "a.jpg" 1920 1080
      = ⟨fsCached, cacheRef "a.jpg", false, false⟩ ∧
    (ensureCached opsNone (ensureCached opsNone fsCached "a.jpg" 1920 1080).fs
        "a.jpg" 1920 1080).ref
      = (ensureCached opsNone fsCached "a.jpg" 1920 1080).ref := by
  have h := ensureCached_memoized opsNone fsCached "a.jpg" 1920 1080
  exact ⟨h.1 rfl, h.2.2.1⟩

theorem ensureCached_degrades_witness :
    (ensureCached opsNone fsEmpty "a.jpg" 1920 1080).ref = photosRef "a.jpg" :=
  (ensureCached_degrades opsNone fsEmpty "a.jpg" 1920 1080).2.1 rfl rfl

theorem ensureCached_copies_small_witness :
    ensureCached opsSmall fsPhoto "a.jpg" 1920 1080
      = ⟨FS.write fsPhoto Root.cache "a.jpg" [7], cacheRef "a.jpg", true, false⟩ :=
  (ensureCached_copies_small opsSmall fsPhoto "a.jpg" [7] ⟨800, 600⟩ rfl rfl rfl
    (by decide) (by decide)).1

theorem prepareFrames_sorted_witness :
    (prepareFrames opsNone (fun _ _ => true) fsEmpty "x").2 = [] :=
  (prepareFrames_sorted opsNone (fun _ _ => true) fsEmpty "x").2.2.2.2 rfl

theorem idsToIterate_selection_witness : idsToIterate cfgClient "k" = [some "a"] := by
  have h := (idsToIterate_selection cfgClient "k").1 ⟨some ["a"]⟩ ["a"] rfl rfl
  simpa using h

theorem buildSlideshow_fallback_witness :
    (buildSlideshow opsNone (fun _ _ => false) cfgBare fsEmpty "c").2 ≠ [] :=
  (buildSlideshow_fallback opsNone (fun _ _ => false) cfgBare fsEmpty "c").2 rfl rfl
    ⟨slideA, by simp [cfgBare], "a.jpg", rfl, by simp⟩

theorem ensureCached_writes_only_cache_witness :
    (ensureCached opsNone fsEmpty "a.jpg" 1920 1080).fs.lookup Root.cache "b.jpg"
      = fsEmpty.lookup Root.cache "b.jpg" :=
  (ensureCached_writes_only_cache opsNone fsEmpty "a.jpg" 1920 1080).2.1 "b.jpg"
    (by decide)
